import Mathlib

/-
Verification of the WEKO sword-server JSON mapper
(src/modules/weko-swordserver/weko_swordserver/mapper.py).

The Python code works on JSON-like dynamic values (dicts, lists, scalars,
None).  We embed those values as the inductive type `JValue`, Python dicts
as insertion-ordered association lists, and each method of
`WekoSwordMapper` as a Lean function returning `Except MapErr` (a raised
exception becomes an `.error`).
-/

namespace WekoSword

/-- A JSON-like dynamic value: Python None, str, int, bool, dict, list. -/
inductive JValue where
  | null : JValue
  | str (s : String) : JValue
  | num (n : Int) : JValue
  | bool (b : Bool) : JValue
  | obj (fields : List (String × JValue)) : JValue
  | arr (elems : List JValue) : JValue

/-- A Python dict with string keys, as an insertion-ordered association list. -/
abbrev JObj := List (String × JValue)

/-- Python `d[k]` / `d.get(k)` key lookup (dict keys are unique, first match). -/
def lookupJ : JObj → String → Option JValue
  | [], _ => none
  | (k', v) :: rest, k => if k' = k then some v else lookupJ rest k

/-- Python `d[k] = v`: replace in place when the key exists, else append. -/
def objSet : JObj → String → JValue → JObj
  | [], k, v => [(k, v)]
  | (k', v') :: rest, k, v =>
      if k' = k then (k, v) :: rest else (k', v') :: objSet rest k v

/-- Python truthiness of a JSON value (`if not x`). -/
def truthy : JValue → Bool
  | .null => false
  | .str s => !s.isEmpty
  | .num n => n != 0
  | .bool b => b
  | .obj f => !f.isEmpty
  | .arr l => !l.isEmpty

/-- Python `d.get(k)` seen through a truthiness test: `none` when the key is
missing or its value is falsy (this is how `if not metadata.get(k)` behaves). -/
def fetchTruthy (o : JObj) (k : String) : Option JValue :=
  match lookupJ o k with
  | some v => if truthy v then some v else none
  | none => none

/-- The value used after `if not metadata.get(k): metadata[k] = dflt`:
the existing value when truthy, otherwise the freshly assigned default. -/
def baseAt (o : JObj) (k : String) (dflt : JValue) : JValue :=
  match fetchTruthy o k with
  | some v => v
  | none => dflt

/-- Python `d.get(k)` as seen by `is None` tests: a stored JSON null is
indistinguishable from a missing key. -/
def pyGetV (o : JObj) (k : String) : Option JValue :=
  match lookupJ o k with
  | some .null => none
  | some v => some v
  | none => none

/-- A scalar in the sense of the data model: not a dict and not a list. -/
def isScalar : JValue → Bool
  | .obj _ => false
  | .arr _ => false
  | _ => true

/-- A Python dict. -/
def isObj : JValue → Bool
  | .obj _ => true
  | _ => false

/-- A Python list. -/
def isArr : JValue → Bool
  | .arr _ => true
  | _ => false

/-- `_get_dimensions`: 0 for non-lists, 1 for the empty list, otherwise
1 + dimensions of the first element. -/
def getDimensions : JValue → Nat
  | .arr [] => 1
  | .arr (x :: _) => 1 + getDimensions x
  | _ => 0

/-- The write at a leaf of `_create_child_metadata_of_a_property`:
`if json_value is not None: child_metadata[k] = json_value`. -/
def writeLeaf (o : JObj) (k : String) (jv : JValue) : JObj :=
  match jv with
  | .null => o
  | _ => objSet o k jv

/-- Outcomes of a raised exception.  `WekoSwordserverException` raises are
given one constructor per distinct raise site; `indexError` is a plain
Python IndexError from out-of-range list indexing; `pyError` stands for the
other plain Python runtime errors (TypeError, KeyError, AttributeError). -/
inductive MapErr where
  | noValueForKey (k : String)
  | pathExhaustedEarly
  | listNotIterable
  | listInList
  | valueExhaustedEarly
  | notDefinedInSchema (k : String)
  | lengthMismatch
  | lastMustBeValue
  | tooManyDimensions
  | valueMustBeLast
  | arrayRequiresList
  | validationFailed (msgs : List String)
  | indexError
  | pyError
deriving DecidableEq

/-- One property of the item-type schema: its JSON-schema `type`
discriminator with, for objects, the nested `properties` map and, for
arrays, the `items`.`properties` map; `title` is carried for the
files-info grouping. -/
inductive SchemaNode where
  | objectT (title : Option String) (props : List (String × SchemaNode)) : SchemaNode
  | arrayT (title : Option String) (items : List (String × SchemaNode)) : SchemaNode
  | valueT (title : Option String) : SchemaNode

/-- Key lookup in a schema `properties` map. -/
def lookupS : List (String × SchemaNode) → String → Option SchemaNode
  | [], _ => none
  | (k', v) :: rest, k => if k' = k then some v else lookupS rest k

/-- `title` of a schema property. -/
def nodeTitle : SchemaNode → Option String
  | .objectT t _ => t
  | .arrayT t _ => t
  | .valueT t => t

/-- Python `s.split(".")` over the character list. -/
def splitDotsChars : List Char → List (List Char)
  | [] => [[]]
  | c :: rest =>
      let r := splitDotsChars rest
      if c = '.' then [] :: r
      else
        match r with
        | [] => [[c]]
        | g :: gs => (c :: g) :: gs

/-- Python `s.split(".")`. -/
def splitDots (s : String) : List String :=
  (splitDotsChars s.data).map (fun cs => String.mk cs)

/-- The loop of `_get_type_of_item_type_path`: walk the path segments over
the schema.  An `object` type descends into `properties`, an `array` type
descends into `items`.`properties`; any other type appends `value` and
leaves the current schema level unchanged (the loop does not stop). -/
def typePathGo : List String → List (String × SchemaNode) → Except MapErr (List String)
  | [], _ => .ok []
  | k :: rest, cur =>
      match lookupS cur k with
      | none => .error (.notDefinedInSchema k)
      | some (.objectT _ props) => (typePathGo rest props).map (fun l => "object" :: l)
      | some (.arrayT _ items) => (typePathGo rest items).map (fun l => "array" :: l)
      | some (.valueT _) => (typePathGo rest cur).map (fun l => "value" :: l)

/-- `_get_type_of_item_type_path`: the loop followed by the two defensive
checks (length equality, final entry must be `value`). -/
def getTypeOfItemTypePath (schema : List (String × SchemaNode)) (itemMapKey : String) :
    Except MapErr (List String) := do
  let keys := splitDots itemMapKey
  let tp ← typePathGo keys schema
  if tp.length ≠ keys.length then
    .error .lengthMismatch
  else
    match tp.getLast? with
    | none => .error .indexError
    | some t => if t = "value" then .ok tp else .error .lastMustBeValue

/-! ## Source-side path resolution (`_get_json_metadata_value`) -/

mutual

/-- Internal `_detect_dict`: look up the first remaining segment in a dict.
A missing key (or a stored null) raises; a dict or list value is returned
directly when no segments remain, otherwise traversal continues; a scalar
value with remaining segments raises. -/
def detectDict (keys : List String) (d : JObj) (inList : Bool) : Except MapErr JValue :=
  match keys with
  | [] => .error .indexError
  | k :: rest =>
    match pyGetV d k with
    | none => .error (.noValueForKey k)
    | some (.obj o) =>
        if rest.isEmpty then .ok (.obj o) else detectDict rest o inList
    | some (.arr l) =>
        if rest.isEmpty then .ok (.arr l) else detectList rest l true
    | some v =>
        if rest.isEmpty then .ok v else .error .pathExhaustedEarly
termination_by (keys.length, 0, 0)

/-- Internal `_detect_list`: guard on `_in_list`, then process the elements. -/
def detectList (keys : List String) (l : List JValue) (inList : Bool) : Except MapErr JValue :=
  if !inList then .error .listNotIterable
  else (detectListAux keys l).map .arr
termination_by (keys.length, 2, 0)

/-- The element loop of `_detect_list`: a dict element recurses with the same
remaining segments, a list element raises (list in list unsupported), and a
scalar element always raises, whether or not segments remain. -/
def detectListAux (keys : List String) (l : List JValue) : Except MapErr (List JValue) :=
  match l with
  | [] => .ok []
  | .obj o :: rest => do
      let r ← detectDict keys o true
      let rs ← detectListAux keys rest
      .ok (r :: rs)
  | .arr _ :: _ => .error .listInList
  | _ :: _ => .error .valueExhaustedEarly
termination_by (keys.length, 1, l.length)

end

/-- `_get_json_metadata_value`: resolve a dotted source path against the
`record.metadata` dict.  A missing (or null) top-level key yields `none`
(the rule is skipped); note that a top-level list value always enters list
mode, even when the path has a single segment. -/
def getJsonMetadataValue (meta : JObj) (jsonMapKey : String) : Except MapErr (Option JValue) :=
  match splitDots jsonMapKey with
  | [] => .error .indexError
  | k :: rest =>
    match pyGetV meta k with
    | none => .ok none
    | some (.obj o) =>
        if rest.isEmpty then .ok (some (.obj o))
        else (detectDict rest o false).map some
    | some (.arr l) => (detectList rest l true).map some
    | some v =>
        if rest.isEmpty then .ok (some v) else .error .pathExhaustedEarly

/-! ## Tree builder (`_create_metadata_of_a_property` and its child builder) -/

mutual

/-- `_create_child_metadata_of_a_property`, in state-passing form: the
mutated `child_metadata` is returned.  Python mutates dicts and lists in
place through aliases; here every recursive call returns the updated
subtree and the caller reattaches it with `objSet`. -/
def createChild (d : Nat) (cm : JValue) (keys ts : List String) (jv : JValue) :
    Except MapErr JValue :=
  match cm with
  | .obj o =>
    match keys with
    | [] => .error .indexError
    | [k] => .ok (.obj (writeLeaf o k jv))
    | k :: k2 :: krest =>
      match ts with
      | [] => .error .indexError
      | t :: ts' =>
        if t = "value" then .ok (.obj (writeLeaf o k jv))
        else if t = "object" then do
          let v' ← createChild d (baseAt o k (.obj [])) (k2 :: krest) ts' jv
          .ok (.obj (objSet o k v'))
        else if t = "array" then
          if d > 0 then
            match baseAt o k (.arr [.obj []]) with
            | .arr (x :: xs) => do
                let x' ← createChild (d - 1) x (k2 :: krest) ts' jv
                .ok (.obj (objSet o k (.arr (x' :: xs))))
            | .arr [] => .error .indexError
            | _ => .error .pyError
          else
            if getDimensions jv = 0 then .error .arrayRequiresList
            else
              match jv with
              | .arr vs =>
                match vs with
                | [] => .ok (.obj (objSet o k (baseAt o k (.arr []))))
                | _ :: _ =>
                  match baseAt o k (.arr (List.replicate vs.length (.obj []))) with
                  | .arr ms => do
                      let ms' ← childLoop d ms (k2 :: krest) ts' vs
                      .ok (.obj (objSet o k (.arr ms')))
                  | _ => .error .pyError
              | _ => .error .pyError
        else .ok (.obj o)
  | _ => .error .pyError
termination_by (keys.length, 0)

/-- The per-element loop `for i in range(len(json_value)): ...` shared by the
two `array` branches with `diff_array == 0`: the i-th element of the existing
list is rebuilt from the i-th element of the extracted value; running past
the end of the existing list is a plain IndexError, and elements beyond
`len(json_value)` are left untouched. -/
def childLoop (d : Nat) (ms : List JValue) (keys ts : List String) (vs : List JValue) :
    Except MapErr (List JValue) :=
  match vs with
  | [] => .ok ms
  | v :: vtl =>
    match ms with
    | [] => .error .indexError
    | m :: mtl => do
        let m' ← createChild d m keys ts v
        let rest ← childLoop d mtl keys ts vtl
        .ok (m' :: rest)
termination_by (keys.length, vs.length + 1)

end

/-- The body of `_create_metadata_of_a_property` after the dimension
reconciliation, with `a` the number of `array` entries of the kind
sequence (so `diff_array = a - dims jv`). -/
def createMetaCore (m : JObj) (keys ts : List String) (jv : JValue) (a : Nat) :
    Except MapErr JObj :=
  let dim := getDimensions jv
  let diff := a - dim
  match keys with
  | [] => .error .indexError
  | [k] =>
      if dim > 0 then
        match jv with
        | .arr (x :: _) => .ok (objSet m k x)
        | .arr [] => .error .indexError
        | _ => .error .pyError
      else .ok (objSet m k jv)
  | k :: k2 :: krest =>
    match ts with
    | [] => .error .indexError
    | t :: ts' =>
      if t = "value" then .error .valueMustBeLast
      else if t = "object" then do
        let v' ← createChild diff (baseAt m k (.obj [])) (k2 :: krest) ts' jv
        .ok (objSet m k v')
      else if t = "array" then
        if diff > 0 then
          match baseAt m k (.arr [.obj []]) with
          | .arr (x :: xs) => do
              let x' ← createChild (diff - 1) x (k2 :: krest) ts' jv
              .ok (objSet m k (.arr (x' :: xs)))
          | .arr [] => .error .indexError
          | _ => .error .pyError
        else
          if dim = 0 then .error .arrayRequiresList
          else
            match jv with
            | .arr vs =>
              match vs with
              | [] => .ok (objSet m k (baseAt m k (.arr [])))
              | _ :: _ =>
                match baseAt m k (.arr (List.replicate vs.length (.obj []))) with
                | .arr ms => do
                    let ms' ← childLoop diff ms (k2 :: krest) ts' vs
                    .ok (objSet m k (.arr ms'))
                | _ => .error .pyError
            | _ => .error .pyError
      else .ok m

/-- `_create_metadata_of_a_property` with the path already split: the
dimension reconciliation (collapse once when one list level too deep,
otherwise fail) followed by the write phase. -/
def createMetaKeys (m : JObj) (keys ts : List String) (jv : JValue) :
    Except MapErr JObj :=
  let d := getDimensions jv
  let a := ts.count "array"
  if d > a then
    if d - a = 1 then
      match jv with
      | .arr (x :: _) => createMetaCore m keys ts x a
      | .arr [] => .error .indexError
      | _ => .error .pyError
    else .error .tooManyDimensions
  else createMetaCore m keys ts jv a

/-- `_create_metadata_of_a_property` on a dotted target path. -/
def createMetadataOfAProperty (m : JObj) (itemMapKey : String) (ts : List String)
    (jv : JValue) : Except MapErr JObj :=
  createMetaKeys m (splitDots itemMapKey) ts jv

/-! ## Validator (`validate_mapping`, `is_valid_mapping`) -/

/-- The accumulation loop of `validate_mapping`: one message per rule id of
the source-path table that is missing from the target-path table. -/
def collectErrors : List String → List String → List String
  | [], _ => []
  | k :: rest, itemKeys =>
      if k ∈ itemKeys then collectErrors rest itemKeys
      else (k ++ " is not defined.") :: collectErrors rest itemKeys

/-- `validate_mapping`: collect all messages, then raise the whole batch at
once when it is non-empty. -/
def validateMapping (jsonMapKeys itemMapKeys : List String) : Except MapErr Unit :=
  match collectErrors jsonMapKeys itemMapKeys with
  | [] => .ok ()
  | msgs => .error (.validationFailed msgs)

/-- `is_valid_mapping`: true iff `validate_mapping` does not raise. -/
def isValidMapping (jsonMapKeys itemMapKeys : List String) : Bool :=
  match validateMapping jsonMapKeys itemMapKeys with
  | .ok _ => true
  | .error _ => false

/-! ## Record mapper (`map`) -/

/-- The source document as consumed by `map`.  `deleted` and `datestamp`
are modelled from the spec: `is_deleted` and `datestamp` are provided by
the external `JsonMapper` base class (not under src/), and per the spec the
header marks the record as a deletion and carries its timestamp.  The other
fields are the header entries and the `record.metadata` dict read by
`map` and `_get_json_metadata_value`. -/
structure SourceDoc where
  deleted : Bool
  datestamp : String
  publishStatus : JValue
  indextree : JValue
  metadata : JObj

/-- Python `{**a, **b}`: entries of `b` override entries of `a`, keeping the
position of overridden keys. -/
def mergeObjs (a b : JObj) : JObj :=
  b.foldl (fun acc kv => objSet acc kv.1 kv.2) a

/-- The loop of `_create_metadata`: per mapping rule, resolve the source
value (skipping the rule when absent), resolve the schema kind sequence of
`item_map[k]` (a missing rule id is a plain KeyError), and write into the
shared output tree. -/
def createMetadataGo (meta : JObj) (schema : List (String × SchemaNode))
    (itemMap : List (String × String)) :
    List (String × String) → JObj → Except MapErr JObj
  | [], acc => .ok acc
  | (k, v) :: rest, acc => do
      match ← getJsonMetadataValue meta v with
      | none => createMetadataGo meta schema itemMap rest acc
      | some jv =>
          match itemMap.lookup k with
          | none => .error .pyError
          | some path => do
              let ts ← getTypeOfItemTypePath schema path
              let acc' ← createMetadataOfAProperty acc path ts jv
              createMetadataGo meta schema itemMap rest acc'

/-- `_create_metadata`. -/
def createMetadata (meta : JObj) (schema : List (String × SchemaNode))
    (itemMap jsonMap : List (String × String)) : Except MapErr JObj :=
  createMetadataGo meta schema itemMap jsonMap []

/-- `map`: short-circuit for deleted records, seed the fixed header fields,
build the metadata tree rule by rule, group the `File`-titled properties
into `files_info`, and merge (metadata entries win on key collisions). -/
def mapRecord (doc : SourceDoc) (schema : List (String × SchemaNode))
    (itemMap jsonMap : List (String × String)) : Except MapErr JObj :=
  if doc.deleted then .ok []
  else do
    let res : JObj :=
      [("pubdate", .str doc.datestamp),
       ("publish_status", doc.publishStatus),
       ("path", .arr [doc.indextree])]
    let metadata ← createMetadata doc.metadata schema itemMap jsonMap
    let filesInfo : JObj :=
      [("files_info", .arr (schema.filterMap (fun kv =>
        if nodeTitle kv.2 = some "File" then
          some (.obj [("key", .str kv.1), ("items", (lookupJ metadata kv.1).getD .null)])
        else none)))]
    .ok (mergeObjs (mergeObjs res filesInfo) metadata)

/-! ## Basic lemmas about the dict and value helpers -/

lemma bind_eq_ok {α β : Type} {x : Except MapErr α} {f : α → Except MapErr β} {b : β} :
    x >>= f = .ok b ↔ ∃ a, x = .ok a ∧ f a = .ok b := by
  cases x <;> simp [Bind.bind, Except.bind]

lemma lookupJ_objSet (o : JObj) (k : String) (v : JValue) :
    lookupJ (objSet o k v) k = some v := by
  induction o with
  | nil => simp [objSet, lookupJ]
  | cons kv rest ih =>
      by_cases h : kv.1 = k
      · simp [objSet, h, lookupJ]
      · simp [objSet, h, lookupJ, ih]

lemma objSet_objSet (o : JObj) (k : String) (v w : JValue) :
    objSet (objSet o k v) k w = objSet o k w := by
  induction o with
  | nil => simp [objSet]
  | cons kv rest ih =>
      by_cases h : kv.1 = k
      · simp [objSet, h]
      · simp [objSet, h, ih]

lemma writeLeaf_writeLeaf (o : JObj) (k : String) (jv : JValue) :
    writeLeaf (writeLeaf o k jv) k jv = writeLeaf o k jv := by
  cases jv <;> simp [writeLeaf, objSet_objSet]

lemma writeLeaf_of_ne_null (o : JObj) (k : String) (jv : JValue) (h : jv ≠ .null) :
    writeLeaf o k jv = objSet o k jv := by
  cases jv <;> simp [writeLeaf] at h ⊢

lemma baseAt_objSet (o : JObj) (k : String) (v dflt : JValue) :
    baseAt (objSet o k v) k dflt = if truthy v then v else dflt := by
  by_cases h : truthy v <;> simp [baseAt, fetchTruthy, lookupJ_objSet, h]

lemma baseAt_of_lookup_none (o : JObj) (k : String) (dflt : JValue)
    (h : lookupJ o k = none) : baseAt o k dflt = dflt := by
  simp [baseAt, fetchTruthy, h]

lemma baseAt_of_lookup_truthy (o : JObj) (k : String) (v dflt : JValue)
    (h : lookupJ o k = some v) (ht : truthy v = true) : baseAt o k dflt = v := by
  simp [baseAt, fetchTruthy, h, ht]

lemma dims_of_scalar (v : JValue) (h : isScalar v = true) : getDimensions v = 0 := by
  cases v <;> simp [isScalar, getDimensions] at h ⊢

lemma dims_arr_ne_zero (l : List JValue) : getDimensions (.arr l) ≠ 0 := by
  cases l <;> simp [getDimensions]

lemma dims_arr_of_scalars (l : List JValue) (h : ∀ x ∈ l, isScalar x = true) :
    getDimensions (.arr l) = 1 := by
  cases l with
  | nil => simp [getDimensions]
  | cons x rest =>
      have hx : getDimensions x = 0 := dims_of_scalar x (h x (by simp))
      simp [getDimensions, hx]

/-! ## Branch equations for the child builder -/

lemma cc_notObj (d : Nat) (cm : JValue) (keys ts : List String) (jv : JValue)
    (h : isObj cm = false) : createChild d cm keys ts jv = .error .pyError := by
  cases cm <;> first | (simp [createChild]) | simp [isObj] at h

lemma cc_keysNil (d : Nat) (o : JObj) (ts : List String) (jv : JValue) :
    createChild d (.obj o) [] ts jv = .error .indexError := by
  simp [createChild]

lemma cc_leaf (d : Nat) (o : JObj) (k : String) (ts : List String) (jv : JValue) :
    createChild d (.obj o) [k] ts jv = .ok (.obj (writeLeaf o k jv)) := by
  simp [createChild]

lemma cc_tsNil (d : Nat) (o : JObj) (k k2 : String) (kr : List String) (jv : JValue) :
    createChild d (.obj o) (k :: k2 :: kr) [] jv = .error .indexError := by
  simp [createChild]

lemma cc_value (d : Nat) (o : JObj) (k k2 : String) (kr ts' : List String) (jv : JValue) :
    createChild d (.obj o) (k :: k2 :: kr) ("value" :: ts') jv
      = .ok (.obj (writeLeaf o k jv)) := by
  rcases jv with _ | s | n | b | f | (_ | ⟨jh, jt⟩) <;> simp [createChild]

lemma cc_object (d : Nat) (o : JObj) (k k2 : String) (kr ts' : List String) (jv : JValue) :
    createChild d (.obj o) (k :: k2 :: kr) ("object" :: ts') jv
      = (createChild d (baseAt o k (.obj [])) (k2 :: kr) ts' jv) >>= fun v' =>
          .ok (.obj (objSet o k v')) := by
  rcases jv with _ | s | n | b | f | (_ | ⟨jh, jt⟩) <;> simp [createChild]

lemma cc_wrap (d : Nat) (o : JObj) (k k2 : String) (kr ts' : List String) (jv : JValue)
    (hd : 0 < d) (x : JValue) (xs : List JValue)
    (hb : baseAt o k (.arr [.obj []]) = .arr (x :: xs)) :
    createChild d (.obj o) (k :: k2 :: kr) ("array" :: ts') jv
      = (createChild (d - 1) x (k2 :: kr) ts' jv) >>= fun x' =>
          .ok (.obj (objSet o k (.arr (x' :: xs)))) := by
  rcases jv with _ | s | n | b | f | (_ | ⟨jh, jt⟩) <;> simp [createChild, hd, hb]

lemma cc_repl_nil (o : JObj) (k k2 : String) (kr ts' : List String) :
    createChild 0 (.obj o) (k :: k2 :: kr) ("array" :: ts') (.arr [])
      = .ok (.obj (objSet o k (baseAt o k (.arr [])))) := by
  simp [createChild, getDimensions]

lemma cc_repl_cons (o : JObj) (k k2 : String) (kr ts' : List String)
    (v : JValue) (vtl ms : List JValue)
    (hb : baseAt o k (.arr (List.replicate (vtl.length + 1) (.obj []))) = .arr ms) :
    createChild 0 (.obj o) (k :: k2 :: kr) ("array" :: ts') (.arr (v :: vtl))
      = (childLoop 0 ms (k2 :: kr) ts' (v :: vtl)) >>= fun ms' =>
          .ok (.obj (objSet o k (.arr ms'))) := by
  simp [createChild, hb, dims_arr_ne_zero]

lemma cc_arr_scalar (o : JObj) (k k2 : String) (kr ts' : List String) (jv : JValue)
    (h0 : getDimensions jv = 0) :
    createChild 0 (.obj o) (k :: k2 :: kr) ("array" :: ts') jv
      = .error .arrayRequiresList := by
  rcases jv with _ | s | n | b | f | (_ | ⟨jh, jt⟩) <;>
    simp [createChild, getDimensions] at h0 ⊢

lemma cc_other (d : Nat) (o : JObj) (k k2 : String) (kr ts' : List String) (t : String)
    (jv : JValue) (h1 : t ≠ "value") (h2 : t ≠ "object") (h3 : t ≠ "array") :
    createChild d (.obj o) (k :: k2 :: kr) (t :: ts') jv = .ok (.obj o) := by
  rcases jv with _ | s | n | b | f | (_ | ⟨jh, jt⟩) <;> simp [createChild, h1, h2, h3]

/-! ## Branch equations for the element loop -/

lemma cl_vsNil (d : Nat) (ms : List JValue) (keys ts : List String) :
    childLoop d ms keys ts [] = .ok ms := by
  simp [childLoop]

lemma cl_msNil (d : Nat) (keys ts : List String) (v : JValue) (vtl : List JValue) :
    childLoop d [] keys ts (v :: vtl) = .error .indexError := by
  simp [childLoop]

lemma cl_cons (d : Nat) (m : JValue) (mtl : List JValue) (keys ts : List String)
    (v : JValue) (vtl : List JValue) :
    childLoop d (m :: mtl) keys ts (v :: vtl)
      = (createChild d m keys ts v) >>= fun m' =>
          (childLoop d mtl keys ts vtl) >>= fun rest => .ok (m' :: rest) := by
  simp [childLoop]

lemma cc_wrap_nilArr (d : Nat) (o : JObj) (k k2 : String) (kr ts' : List String)
    (jv : JValue) (hd : 0 < d) (hb : baseAt o k (.arr [.obj []]) = .arr []) :
    createChild d (.obj o) (k :: k2 :: kr) ("array" :: ts') jv = .error .indexError := by
  rcases jv with _ | s | n | b | f | (_ | ⟨jh, jt⟩) <;> simp [createChild, hd, hb]

lemma cc_wrap_notArr (d : Nat) (o : JObj) (k k2 : String) (kr ts' : List String)
    (jv b : JValue) (hd : 0 < d) (hb : baseAt o k (.arr [.obj []]) = b)
    (hbn : isArr b = false) :
    createChild d (.obj o) (k :: k2 :: kr) ("array" :: ts') jv = .error .pyError := by
  rcases b with _ | s | n | bb | f | l
  case arr => simp [isArr] at hbn
  all_goals (rcases jv with _ | s2 | n2 | b2 | f2 | (_ | ⟨jh, jt⟩) <;> simp [createChild, hd, hb])

lemma cc_repl_cons_notArr (o : JObj) (k k2 : String) (kr ts' : List String)
    (v : JValue) (vtl : List JValue) (b : JValue)
    (hb : baseAt o k (.arr (List.replicate (vtl.length + 1) (.obj []))) = b)
    (hbn : isArr b = false) :
    createChild 0 (.obj o) (k :: k2 :: kr) ("array" :: ts') (.arr (v :: vtl))
      = .error .pyError := by
  rcases b with _ | s | n | bb | f | l
  case arr => simp [isArr] at hbn
  all_goals simp [createChild, hb, dims_arr_ne_zero]

/-! ## Shape and length facts -/

lemma fetchTruthy_some_truthy (o : JObj) (k : String) (v : JValue)
    (h : fetchTruthy o k = some v) : truthy v = true := by
  unfold fetchTruthy at h
  rcases hl : lookupJ o k with _ | w
  · simp [hl] at h
  · simp [hl] at h
    rcases h with ⟨ht, rfl⟩
    exact ht

lemma dims_ne_zero_arr (jv : JValue) (h : getDimensions jv ≠ 0) : ∃ l, jv = .arr l := by
  cases jv <;> simp [getDimensions] at h ⊢

lemma isArr_arr (b : JValue) (h : isArr b = true) : ∃ l, b = .arr l := by
  cases b <;> simp [isArr] at h ⊢

lemma baseAt_objSet_obj (o : JObj) (k : String) (o'' : JObj) :
    baseAt (objSet o k (.obj o'')) k (.obj []) = .obj o'' := by
  cases o'' <;> simp [baseAt_objSet, truthy]

lemma baseAt_objSet_arr_cons (o : JObj) (k : String) (x : JValue) (xs : List JValue)
    (dflt : JValue) : baseAt (objSet o k (.arr (x :: xs))) k dflt = .arr (x :: xs) := by
  simp [baseAt_objSet, truthy]

lemma baseAt_objSet_fix (o : JObj) (k : String) (dflt : JValue)
    (hd : truthy dflt = false) :
    baseAt (objSet o k (baseAt o k dflt)) k dflt = baseAt o k dflt := by
  rcases hf : fetchTruthy o k with _ | v
  · have hb : baseAt o k dflt = dflt := by simp [baseAt, hf]
    rw [hb, baseAt_objSet]
    simp [hd]
  · have ht := fetchTruthy_some_truthy o k v hf
    have hb : baseAt o k dflt = v := by simp [baseAt, hf]
    rw [hb, baseAt_objSet]
    simp [ht]

lemma cc_ok_obj (d : Nat) (cm : JValue) (keys ts : List String) (jv r : JValue)
    (h : createChild d cm keys ts jv = .ok r) :
    (∃ o, cm = .obj o) ∧ ∃ o', r = .obj o' := by
  rcases hcm : cm with _ | s | n | b | o | l
  all_goals (rw [hcm] at h)
  case null | str | num | bool | arr => simp [cc_notObj, isObj] at h
  refine ⟨⟨o, rfl⟩, ?_⟩
  rcases keys with _ | ⟨k, _ | ⟨k2, kr⟩⟩
  · simp [cc_keysNil] at h
  · rw [cc_leaf] at h
    exact ⟨_, (Except.ok.injEq _ _).mp h |>.symm⟩
  rcases ts with _ | ⟨t, ts'⟩
  · simp [cc_tsNil] at h
  by_cases h1 : t = "value"
  · subst h1
    rw [cc_value] at h
    exact ⟨_, (Except.ok.injEq _ _).mp h |>.symm⟩
  by_cases h2 : t = "object"
  · subst h2
    rw [cc_object, bind_eq_ok] at h
    rcases h with ⟨a, _, ha⟩
    exact ⟨_, (Except.ok.injEq _ _).mp ha |>.symm⟩
  by_cases h3 : t = "array"
  · subst h3
    rcases Nat.eq_zero_or_pos d with hd | hd
    · subst hd
      by_cases h0 : getDimensions jv = 0
      · simp [cc_arr_scalar _ _ _ _ _ _ h0] at h
      · rcases dims_ne_zero_arr jv h0 with ⟨vs, rfl⟩
        rcases vs with _ | ⟨v, vtl⟩
        · rw [cc_repl_nil] at h
          exact ⟨_, (Except.ok.injEq _ _).mp h |>.symm⟩
        · rcases hba : isArr (baseAt o k (.arr (List.replicate (vtl.length + 1) (.obj [])))) with _ | _
          · simp [cc_repl_cons_notArr o k k2 kr ts' v vtl _ rfl hba] at h
          · rcases hbv : baseAt o k (.arr (List.replicate (vtl.length + 1) (.obj [])))
              with _ | _ | _ | _ | _ | ms
            all_goals (rw [hbv] at hba; simp [isArr] at hba)
            rw [cc_repl_cons o k k2 kr ts' v vtl ms hbv, bind_eq_ok] at h
            rcases h with ⟨a, _, ha⟩
            exact ⟨_, (Except.ok.injEq _ _).mp ha |>.symm⟩
    · rcases hbv : baseAt o k (.arr [.obj []]) with _ | _ | _ | _ | _ | ms
      all_goals
        try simp [cc_wrap_notArr d o k k2 kr ts' jv _ hd hbv (by simp [isArr])] at h
      rcases ms with _ | ⟨x, xs⟩
      · simp [cc_wrap_nilArr d o k k2 kr ts' jv hd hbv] at h
      · rw [cc_wrap d o k k2 kr ts' jv hd x xs hbv, bind_eq_ok] at h
        rcases h with ⟨a, _, ha⟩
        exact ⟨_, (Except.ok.injEq _ _).mp ha |>.symm⟩
  · rw [cc_other d o k k2 kr ts' t jv h1 h2 h3] at h
    exact ⟨_, (Except.ok.injEq _ _).mp h |>.symm⟩

lemma cl_ok_len (keys : List String) (d : Nat) (ms : List JValue) (ts : List String)
    (vs ms' : List JValue) (h : childLoop d ms keys ts vs = .ok ms') :
    ms'.length = ms.length ∧ vs.length ≤ ms.length := by
  induction vs generalizing ms ms' with
  | nil =>
      rw [cl_vsNil] at h
      simp [(Except.ok.injEq _ _).mp h]
  | cons v vtl ih =>
      rcases ms with _ | ⟨m, mtl⟩
      · simp [cl_msNil] at h
      · rw [cl_cons, bind_eq_ok] at h
        rcases h with ⟨m', _, h⟩
        rw [bind_eq_ok] at h
        rcases h with ⟨rest, hrest, h⟩
        rcases ih mtl rest hrest with ⟨h1, h2⟩
        have := (Except.ok.injEq _ _).mp h
        subst this
        simp [h1]
        omega

/-! ## Idempotence of the child builder -/

lemma child_loop_idem (n : Nat) :
    (∀ keys : List String, keys.length = n → ∀ d cm (ts : List String) jv r,
        createChild d cm keys ts jv = .ok r → createChild d r keys ts jv = .ok r)
  ∧ (∀ keys : List String, keys.length = n → ∀ d (ms : List JValue) (ts : List String) vs r,
        childLoop d ms keys ts vs = .ok r → childLoop d r keys ts vs = .ok r) := by
  induction n with
  | zero =>
      constructor
      · intro keys hk d cm ts jv r h
        rcases List.length_eq_zero.mp hk with rfl
        rcases cm with _ | s | n0 | b | o | l <;>
          simp [cc_notObj, isObj, cc_keysNil] at h
      · intro keys hk d ms ts vs r h
        rcases List.length_eq_zero.mp hk with rfl
        rcases vs with _ | ⟨v, vtl⟩
        · rw [cl_vsNil] at h
          have : ms = r := by simpa using h
          subst this
          exact cl_vsNil ..
        · rcases ms with _ | ⟨m, mtl⟩
          · rw [cl_msNil] at h; cases h
          · rw [cl_cons, bind_eq_ok] at h
            rcases h with ⟨m', hm, _⟩
            rcases m with _ | s | n0 | b | o | l <;>
              simp [cc_notObj, isObj, cc_keysNil] at hm
  | succ n ih =>
      have hC : ∀ keys : List String, keys.length = n + 1 → ∀ d cm (ts : List String) jv r,
          createChild d cm keys ts jv = .ok r → createChild d r keys ts jv = .ok r := by
        intro keys hk d cm ts jv r h
        obtain ⟨⟨o, rfl⟩, o', rfl⟩ := cc_ok_obj d cm keys ts jv _ h
        rcases keys with _ | ⟨k, _ | ⟨k2, kr⟩⟩
        · rw [cc_keysNil] at h; cases h
        · rw [cc_leaf] at h ⊢
          have hw : writeLeaf o k jv = o' := by simpa using h
          rw [← hw, writeLeaf_writeLeaf]
        have hkr : (k2 :: kr : List String).length = n := by simpa using hk
        rcases ts with _ | ⟨t, ts'⟩
        · rw [cc_tsNil] at h; cases h
        by_cases h1 : t = "value"
        · subst h1
          rw [cc_value] at h ⊢
          have hw : writeLeaf o k jv = o' := by simpa using h
          rw [← hw, writeLeaf_writeLeaf]
        by_cases h2 : t = "object"
        · subst h2
          rw [cc_object, bind_eq_ok] at h
          rcases h with ⟨v', hrec, hres⟩
          have hr : objSet o k v' = o' := by simpa using hres
          obtain ⟨_, o'', rfl⟩ := cc_ok_obj _ _ _ _ _ _ hrec
          rw [cc_object, bind_eq_ok]
          refine ⟨.obj o'', ?_, ?_⟩
          · rw [← hr, baseAt_objSet_obj]
            exact ih.1 (k2 :: kr) hkr d _ ts' jv _ hrec
          · rw [← hr, objSet_objSet]
        by_cases h3 : t = "array"
        · subst h3
          rcases Nat.eq_zero_or_pos d with rfl | hd
          · by_cases h0 : getDimensions jv = 0
            · rw [cc_arr_scalar _ _ _ _ _ _ h0] at h; cases h
            rcases dims_ne_zero_arr jv h0 with ⟨vs, rfl⟩
            rcases vs with _ | ⟨v, vtl⟩
            · rw [cc_repl_nil] at h
              have hr : objSet o k (baseAt o k (.arr [])) = o' := by simpa using h
              rw [cc_repl_nil, ← hr, baseAt_objSet_fix o k (.arr []) (by simp [truthy]),
                objSet_objSet]
            · rcases hia : isArr (baseAt o k (.arr (List.replicate (vtl.length + 1) (.obj []))))
                with _ | _
              · rw [cc_repl_cons_notArr o k k2 kr ts' v vtl _ rfl hia] at h
                cases h
              obtain ⟨ms, hbv⟩ := isArr_arr _ hia
              rw [cc_repl_cons o k k2 kr ts' v vtl ms hbv, bind_eq_ok] at h
              rcases h with ⟨ms', hloop, hres⟩
              have hr : objSet o k (.arr ms') = o' := by simpa using hres
              obtain ⟨hlen, hge⟩ := cl_ok_len (k2 :: kr) 0 ms ts' (v :: vtl) ms' hloop
              rcases ms' with _ | ⟨m1, mrest⟩
              · exfalso; simp at hlen hge; omega
              · rw [cc_repl_cons o' k k2 kr ts' v vtl (m1 :: mrest)
                  (by rw [← hr]; exact baseAt_objSet_arr_cons ..), bind_eq_ok]
                refine ⟨m1 :: mrest, ?_, ?_⟩
                · exact ih.2 (k2 :: kr) hkr 0 ms ts' (v :: vtl) _ hloop
                · rw [← hr, objSet_objSet]
          · rcases hia : isArr (baseAt o k (.arr [.obj []])) with _ | _
            · rw [cc_wrap_notArr d o k k2 kr ts' jv _ hd rfl hia] at h
              cases h
            obtain ⟨ms, hbv⟩ := isArr_arr _ hia
            rcases ms with _ | ⟨x, xs⟩
            · rw [cc_wrap_nilArr d o k k2 kr ts' jv hd hbv] at h; cases h
            · rw [cc_wrap d o k k2 kr ts' jv hd x xs hbv, bind_eq_ok] at h
              rcases h with ⟨x', hrec, hres⟩
              have hr : objSet o k (.arr (x' :: xs)) = o' := by simpa using hres
              rw [cc_wrap d o' k k2 kr ts' jv hd x' xs
                (by rw [← hr]; exact baseAt_objSet_arr_cons ..), bind_eq_ok]
              refine ⟨x', ?_, ?_⟩
              · exact ih.1 (k2 :: kr) hkr (d - 1) x ts' jv x' hrec
              · rw [← hr, objSet_objSet]
        · rw [cc_other d o k k2 kr ts' t jv h1 h2 h3] at h
          have hr : o = o' := by simpa using h
          subst hr
          exact cc_other d o k k2 kr ts' t jv h1 h2 h3
      refine ⟨hC, ?_⟩
      intro keys hk d ms ts vs r h
      induction vs generalizing ms r with
      | nil =>
          rw [cl_vsNil] at h
          have : ms = r := by simpa using h
          subst this
          exact cl_vsNil ..
      | cons v vtl ihv =>
          rcases ms with _ | ⟨m, mtl⟩
          · rw [cl_msNil] at h; cases h
          · rw [cl_cons, bind_eq_ok] at h
            rcases h with ⟨m', hm, h⟩
            rw [bind_eq_ok] at h
            rcases h with ⟨rest, hrest, hres⟩
            have hr : m' :: rest = r := by simpa using hres
            subst hr
            rw [cl_cons, bind_eq_ok]
            refine ⟨m', hC keys hk d m ts v m' hm, ?_⟩
            rw [bind_eq_ok]
            exact ⟨rest, ihv mtl rest hrest, rfl⟩

lemma createChild_idem (d : Nat) (cm : JValue) (keys ts : List String) (jv r : JValue)
    (h : createChild d cm keys ts jv = .ok r) : createChild d r keys ts jv = .ok r :=
  (child_loop_idem keys.length).1 keys rfl d cm ts jv r h

lemma childLoop_idem (d : Nat) (ms : List JValue) (keys ts : List String)
    (vs r : List JValue) (h : childLoop d ms keys ts vs = .ok r) :
    childLoop d r keys ts vs = .ok r :=
  (child_loop_idem keys.length).2 keys rfl d ms ts vs r h

/-! ## Branch equations for the top-level builder -/

lemma cmc_keysNil (m : JObj) (ts : List String) (jv : JValue) (a : Nat) :
    createMetaCore m [] ts jv a = .error .indexError := by
  simp [createMetaCore]

lemma cmc_leaf_scalar (m : JObj) (k : String) (ts : List String) (jv : JValue) (a : Nat)
    (h0 : getDimensions jv = 0) : createMetaCore m [k] ts jv a = .ok (objSet m k jv) := by
  simp [createMetaCore, h0]

lemma cmc_leaf_arrCons (m : JObj) (k : String) (ts : List String) (x : JValue)
    (xs : List JValue) (a : Nat) :
    createMetaCore m [k] ts (.arr (x :: xs)) a = .ok (objSet m k x) := by
  have hp : 0 < getDimensions (.arr (x :: xs)) := by simp [getDimensions]
  simp [createMetaCore, hp]

lemma cmc_leaf_arrNil (m : JObj) (k : String) (ts : List String) (a : Nat) :
    createMetaCore m [k] ts (.arr []) a = .error .indexError := by
  simp [createMetaCore, getDimensions]

lemma cmc_tsNil (m : JObj) (k k2 : String) (kr : List String) (jv : JValue) (a : Nat) :
    createMetaCore m (k :: k2 :: kr) [] jv a = .error .indexError := by
  simp [createMetaCore]

lemma cmc_value (m : JObj) (k k2 : String) (kr ts' : List String) (jv : JValue) (a : Nat) :
    createMetaCore m (k :: k2 :: kr) ("value" :: ts') jv a = .error .valueMustBeLast := by
  simp [createMetaCore]

lemma cmc_object (m : JObj) (k k2 : String) (kr ts' : List String) (jv : JValue) (a : Nat) :
    createMetaCore m (k :: k2 :: kr) ("object" :: ts') jv a
      = (createChild (a - getDimensions jv) (baseAt m k (.obj [])) (k2 :: kr) ts' jv)
          >>= fun v' => .ok (objSet m k v') := by
  simp [createMetaCore]

lemma cmc_wrap (m : JObj) (k k2 : String) (kr ts' : List String) (jv : JValue) (a : Nat)
    (hdiff : 0 < a - getDimensions jv) (x : JValue) (xs : List JValue)
    (hb : baseAt m k (.arr [.obj []]) = .arr (x :: xs)) :
    createMetaCore m (k :: k2 :: kr) ("array" :: ts') jv a
      = (createChild (a - getDimensions jv - 1) x (k2 :: kr) ts' jv)
          >>= fun x' => .ok (objSet m k (.arr (x' :: xs))) := by
  simp [createMetaCore, hdiff, hb]

lemma cmc_wrap_nilArr (m : JObj) (k k2 : String) (kr ts' : List String) (jv : JValue)
    (a : Nat) (hdiff : 0 < a - getDimensions jv)
    (hb : baseAt m k (.arr [.obj []]) = .arr []) :
    createMetaCore m (k :: k2 :: kr) ("array" :: ts') jv a = .error .indexError := by
  simp [createMetaCore, hdiff, hb]

lemma cmc_wrap_notArr (m : JObj) (k k2 : String) (kr ts' : List String) (jv : JValue)
    (a : Nat) (b : JValue) (hdiff : 0 < a - getDimensions jv)
    (hb : baseAt m k (.arr [.obj []]) = b) (hbn : isArr b = false) :
    createMetaCore m (k :: k2 :: kr) ("array" :: ts') jv a = .error .pyError := by
  rcases b with _ | s | nn | bb | f | l
  case arr => simp [isArr] at hbn
  all_goals simp [createMetaCore, hdiff, hb]

lemma cmc_arr_scalar (m : JObj) (k k2 : String) (kr ts' : List String) (jv : JValue)
    (a : Nat) (hd0 : ¬ 0 < a - getDimensions jv) (h0 : getDimensions jv = 0) :
    createMetaCore m (k :: k2 :: kr) ("array" :: ts') jv a = .error .arrayRequiresList := by
  rw [h0] at hd0
  have ha : a = 0 := by omega
  simp [createMetaCore, h0, ha]

lemma cmc_repl_nil (m : JObj) (k k2 : String) (kr ts' : List String) (a : Nat)
    (hd0 : ¬ 0 < a - getDimensions (.arr ([] : List JValue))) :
    createMetaCore m (k :: k2 :: kr) ("array" :: ts') (.arr []) a
      = .ok (objSet m k (baseAt m k (.arr []))) := by
  simp [getDimensions] at hd0
  simp [createMetaCore, getDimensions, hd0]

lemma cmc_repl_cons (m : JObj) (k k2 : String) (kr ts' : List String) (v : JValue)
    (vtl : List JValue) (a : Nat)
    (hd0 : ¬ 0 < a - getDimensions (.arr (v :: vtl))) (ms : List JValue)
    (hb : baseAt m k (.arr (List.replicate (vtl.length + 1) (.obj []))) = .arr ms) :
    createMetaCore m (k :: k2 :: kr) ("array" :: ts') (.arr (v :: vtl)) a
      = (childLoop (a - getDimensions (.arr (v :: vtl))) ms (k2 :: kr) ts' (v :: vtl))
          >>= fun ms' => .ok (objSet m k (.arr ms')) := by
  have hne : getDimensions (.arr (v :: vtl)) ≠ 0 := dims_arr_ne_zero _
  simp [createMetaCore, hd0, hb, hne]

lemma cmc_repl_cons_notArr (m : JObj) (k k2 : String) (kr ts' : List String) (v : JValue)
    (vtl : List JValue) (a : Nat)
    (hd0 : ¬ 0 < a - getDimensions (.arr (v :: vtl))) (b : JValue)
    (hb : baseAt m k (.arr (List.replicate (vtl.length + 1) (.obj []))) = b)
    (hbn : isArr b = false) :
    createMetaCore m (k :: k2 :: kr) ("array" :: ts') (.arr (v :: vtl)) a
      = .error .pyError := by
  have hne : getDimensions (.arr (v :: vtl)) ≠ 0 := dims_arr_ne_zero _
  rcases b with _ | s | nn | bb | f | l
  case arr => simp [isArr] at hbn
  all_goals simp [createMetaCore, hd0, hb, hne]

lemma cmc_other (m : JObj) (k k2 : String) (kr ts' : List String) (t : String)
    (jv : JValue) (a : Nat) (h1 : t ≠ "value") (h2 : t ≠ "object") (h3 : t ≠ "array") :
    createMetaCore m (k :: k2 :: kr) (t :: ts') jv a = .ok m := by
  simp [createMetaCore, h1, h2, h3]

/-! ## Idempotence of the top-level builder -/

lemma cmc_idem (m : JObj) (keys ts : List String) (jv : JValue) (a : Nat) (m' : JObj)
    (h : createMetaCore m keys ts jv a = .ok m') :
    createMetaCore m' keys ts jv a = .ok m' := by
  rcases keys with _ | ⟨k, _ | ⟨k2, kr⟩⟩
  · rw [cmc_keysNil] at h; cases h
  · by_cases h0 : getDimensions jv = 0
    · rw [cmc_leaf_scalar _ _ _ _ _ h0] at h
      have hr : objSet m k jv = m' := by simpa using h
      rw [cmc_leaf_scalar _ _ _ _ _ h0, ← hr, objSet_objSet]
    · rcases dims_ne_zero_arr jv h0 with ⟨l, rfl⟩
      rcases l with _ | ⟨x, xs⟩
      · rw [cmc_leaf_arrNil] at h; cases h
      · rw [cmc_leaf_arrCons] at h
        have hr : objSet m k x = m' := by simpa using h
        rw [cmc_leaf_arrCons, ← hr, objSet_objSet]
  rcases ts with _ | ⟨t, ts'⟩
  · rw [cmc_tsNil] at h; cases h
  by_cases h1 : t = "value"
  · subst h1; rw [cmc_value] at h; cases h
  by_cases h2 : t = "object"
  · subst h2
    rw [cmc_object, bind_eq_ok] at h
    rcases h with ⟨v', hrec, hres⟩
    have hr : objSet m k v' = m' := by simpa using hres
    obtain ⟨_, o'', rfl⟩ := cc_ok_obj _ _ _ _ _ _ hrec
    rw [cmc_object, bind_eq_ok]
    refine ⟨.obj o'', ?_, ?_⟩
    · rw [← hr, baseAt_objSet_obj]
      exact createChild_idem _ _ _ _ _ _ hrec
    · rw [← hr, objSet_objSet]
  by_cases h3 : t = "array"
  · subst h3
    by_cases hdiff : 0 < a - getDimensions jv
    · rcases hia : isArr (baseAt m k (.arr [.obj []])) with _ | _
      · rw [cmc_wrap_notArr m k k2 kr ts' jv a _ hdiff rfl hia] at h; cases h
      obtain ⟨ms, hbv⟩ := isArr_arr _ hia
      rcases ms with _ | ⟨x, xs⟩
      · rw [cmc_wrap_nilArr m k k2 kr ts' jv a hdiff hbv] at h; cases h
      · rw [cmc_wrap m k k2 kr ts' jv a hdiff x xs hbv, bind_eq_ok] at h
        rcases h with ⟨x', hrec, hres⟩
        have hr : objSet m k (.arr (x' :: xs)) = m' := by simpa using hres
        rw [cmc_wrap m' k k2 kr ts' jv a hdiff x' xs
          (by rw [← hr]; exact baseAt_objSet_arr_cons ..), bind_eq_ok]
        refine ⟨x', createChild_idem _ _ _ _ _ _ hrec, ?_⟩
        rw [← hr, objSet_objSet]
    · by_cases h0 : getDimensions jv = 0
      · rw [cmc_arr_scalar m k k2 kr ts' jv a hdiff h0] at h; cases h
      rcases dims_ne_zero_arr jv h0 with ⟨l, rfl⟩
      rcases l with _ | ⟨v, vtl⟩
      · rw [cmc_repl_nil m k k2 kr ts' a hdiff] at h
        have hr : objSet m k (baseAt m k (.arr [])) = m' := by simpa using h
        rw [cmc_repl_nil m' k k2 kr ts' a hdiff, ← hr,
          baseAt_objSet_fix m k (.arr []) (by simp [truthy]), objSet_objSet]
      · rcases hia : isArr (baseAt m k (.arr (List.replicate (vtl.length + 1) (.obj []))))
          with _ | _
        · rw [cmc_repl_cons_notArr m k k2 kr ts' v vtl a hdiff _ rfl hia] at h
          cases h
        obtain ⟨ms, hbv⟩ := isArr_arr _ hia
        rw [cmc_repl_cons m k k2 kr ts' v vtl a hdiff ms hbv, bind_eq_ok] at h
        rcases h with ⟨ms', hloop, hres⟩
        have hr : objSet m k (.arr ms') = m' := by simpa using hres
        obtain ⟨hlen, hge⟩ := cl_ok_len (k2 :: kr) _ ms ts' (v :: vtl) ms' hloop
        rcases ms' with _ | ⟨m1, mrest⟩
        · exfalso; simp at hlen hge; omega
        · rw [cmc_repl_cons m' k k2 kr ts' v vtl a hdiff (m1 :: mrest)
            (by rw [← hr]; exact baseAt_objSet_arr_cons ..), bind_eq_ok]
          refine ⟨m1 :: mrest, childLoop_idem _ _ _ _ _ _ hloop, ?_⟩
          rw [← hr, objSet_objSet]
  · rw [cmc_other m k k2 kr ts' t jv a h1 h2 h3] at h
    have hr : m = m' := by simpa using h
    subst hr
    exact cmc_other m k k2 kr ts' t jv a h1 h2 h3

/-! ## Branch equations and idempotence for the reconciliation wrapper -/

lemma cmk_eq_core (m : JObj) (keys ts : List String) (jv : JValue)
    (h : getDimensions jv ≤ ts.count "array") :
    createMetaKeys m keys ts jv = createMetaCore m keys ts jv (ts.count "array") := by
  simp [createMetaKeys, Nat.not_lt.mpr h]

lemma cmk_collapse (m : JObj) (keys ts : List String) (x : JValue) (xs : List JValue)
    (h : getDimensions (.arr (x :: xs)) = ts.count "array" + 1) :
    createMetaKeys m keys ts (.arr (x :: xs))
      = createMetaCore m keys ts x (ts.count "array") := by
  simp [createMetaKeys, h]

lemma cmk_collapse_nil (m : JObj) (keys ts : List String)
    (h : ts.count "array" = 0) :
    createMetaKeys m keys ts (.arr []) = .error .indexError := by
  simp [createMetaKeys, getDimensions, h]

lemma cmk_tooMany (m : JObj) (keys ts : List String) (jv : JValue)
    (h : ts.count "array" + 1 < getDimensions jv) :
    createMetaKeys m keys ts jv = .error .tooManyDimensions := by
  have h1 : ts.count "array" < getDimensions jv := by omega
  have h2 : getDimensions jv - ts.count "array" ≠ 1 := by omega
  simp [createMetaKeys, h1, h2]

lemma cmk_idem (m : JObj) (keys ts : List String) (jv : JValue) (m' : JObj)
    (h : createMetaKeys m keys ts jv = .ok m') :
    createMetaKeys m' keys ts jv = .ok m' := by
  by_cases hle : getDimensions jv ≤ ts.count "array"
  · rw [cmk_eq_core _ _ _ _ hle] at h ⊢
    exact cmc_idem _ _ _ _ _ _ h
  · have hgt : ts.count "array" < getDimensions jv := Nat.not_le.mp hle
    by_cases he : getDimensions jv = ts.count "array" + 1
    · have h0 : getDimensions jv ≠ 0 := by omega
      rcases dims_ne_zero_arr jv h0 with ⟨l, rfl⟩
      rcases l with _ | ⟨x, xs⟩
      · have ha : ts.count "array" = 0 := by
          simp [getDimensions] at he
          omega
        rw [cmk_collapse_nil _ _ _ ha] at h; cases h
      · rw [cmk_collapse _ _ _ _ _ he] at h ⊢
        exact cmc_idem _ _ _ _ _ _ h
    · have hgt1 : ts.count "array" + 1 < getDimensions jv := by omega
      rw [cmk_tooMany _ _ _ _ hgt1] at h; cases h

/-! ## The replicate loop over fresh empty objects -/

lemma cl_replicate (d : Nat) (q : String) (ts : List String) (l : List JValue) :
    childLoop d (List.replicate l.length (.obj [])) [q] ts l
      = .ok (l.map fun x => .obj (writeLeaf [] q x)) := by
  induction l with
  | nil => simpa using cl_vsNil d [] [q] ts
  | cons v vtl ih =>
      rw [List.length_cons, List.replicate_succ, cl_cons, cc_leaf]
      simp [Bind.bind, Except.bind, ih]

lemma map_writeLeaf_nonnull (q : String) (l : List JValue)
    (h : ∀ x ∈ l, x ≠ .null) :
    (l.map fun x => JValue.obj (writeLeaf [] q x)) = l.map fun x => .obj [(q, x)] := by
  apply List.map_congr_left
  intro x hx
  rw [writeLeaf_of_ne_null [] q x (h x hx)]
  rfl

/-! ## Overflow and success of the element loop -/

lemma cl_prefix_overflow (d : Nat) (keys ts : List String) (ms vs ms' : List JValue)
    (hlt : ms.length < vs.length)
    (hok : childLoop d ms keys ts (vs.take ms.length) = .ok ms') :
    childLoop d ms keys ts vs = .error .indexError := by
  induction ms generalizing vs ms' with
  | nil =>
      rcases vs with _ | ⟨v, vtl⟩
      · simp at hlt
      · exact cl_msNil ..
  | cons m mtl ih =>
      rcases vs with _ | ⟨v, vtl⟩
      · simp at hlt
      · rw [List.length_cons, List.take_succ_cons, cl_cons, bind_eq_ok] at hok
        rcases hok with ⟨m', hm, hrest⟩
        rw [bind_eq_ok] at hrest
        rcases hrest with ⟨rest, hrest, _⟩
        rw [cl_cons, hm]
        have he := ih vtl rest (by simpa using hlt) hrest
        simp [Bind.bind, Except.bind, he]

lemma cl_objs_ok (d : Nat) (q : String) (ts : List String) (ms vs' : List JValue)
    (hobj : ∀ x ∈ ms, isObj x = true) (hle : vs'.length ≤ ms.length) :
    ∃ ms', childLoop d ms [q] ts vs' = .ok ms' := by
  induction vs' generalizing ms with
  | nil => exact ⟨ms, cl_vsNil ..⟩
  | cons v vtl ih =>
      rcases ms with _ | ⟨m, mtl⟩
      · simp at hle
      · obtain ⟨o, rfl⟩ : ∃ o, m = .obj o := by
          have := hobj m (by simp)
          cases m <;> simp [isObj] at this ⊢
        obtain ⟨rest, hrest⟩ := ih mtl (fun x hx => hobj x (by simp [hx]))
          (by simpa using hle)
        refine ⟨.obj (writeLeaf o q v) :: rest, ?_⟩
        rw [cl_cons, cc_leaf, hrest]
        simp [Bind.bind, Except.bind]

/-! ## Lemmas about the source-side resolver -/

lemma map_eq_ok {α β : Type} {x : Except MapErr α} {f : α → β} {b : β} :
    x.map f = .ok b ↔ ∃ a, x = .ok a ∧ f a = b := by
  cases x <;> simp [Except.map]

lemma detectListAux_scalar_head (keys : List String) (x : JValue) (rest : List JValue)
    (h : isScalar x = true) :
    detectListAux keys (x :: rest) = .error .valueExhaustedEarly := by
  cases x <;> simp [detectListAux, isScalar] at h ⊢

lemma detectList_scalar_head (keys : List String) (x : JValue) (rest : List JValue)
    (h : isScalar x = true) :
    detectList keys (x :: rest) true = .error .valueExhaustedEarly := by
  simp [detectList, detectListAux_scalar_head keys x rest h, Except.map]

/-! ## Lemmas about the schema-side resolver -/

lemma typePathGo_length (keys : List String) (cur : List (String × SchemaNode))
    (tp : List String) (h : typePathGo keys cur = .ok tp) : tp.length = keys.length := by
  induction keys generalizing cur tp with
  | nil =>
      simp [typePathGo] at h
      simp [← h]
  | cons k rest ih =>
      unfold typePathGo at h
      rcases hl : lookupS cur k with _ | nd
      · simp [hl] at h
      rcases nd with ⟨t, props⟩ | ⟨t, items⟩ | t
      all_goals
        simp only [hl] at h
        rw [map_eq_ok] at h
        rcases h with ⟨l, hgo, rfl⟩
        simp [ih _ _ hgo]

lemma typePathGo_error_shape (keys : List String) (cur : List (String × SchemaNode))
    (e : MapErr) (h : typePathGo keys cur = .error e) :
    ∃ k, e = .notDefinedInSchema k := by
  induction keys generalizing cur e with
  | nil => simp [typePathGo] at h
  | cons k rest ih =>
      unfold typePathGo at h
      rcases hl : lookupS cur k with _ | nd
      · simp [hl] at h
        exact ⟨k, h.symm⟩
      rcases nd with ⟨t, props⟩ | ⟨t, items⟩ | t
      all_goals
        simp only [hl] at h
        rcases hgo : typePathGo rest _ with e' | l
        · rw [hgo] at h
          simp [Except.map] at h
          exact h ▸ ih _ _ hgo
        · rw [hgo] at h
          simp [Except.map] at h

lemma getType_no_lengthMismatch (schema : List (String × SchemaNode)) (key : String) :
    getTypeOfItemTypePath schema key ≠ .error .lengthMismatch := by
  unfold getTypeOfItemTypePath
  rcases hgo : typePathGo (splitDots key) schema with e | tp
  · obtain ⟨k, rfl⟩ := typePathGo_error_shape _ _ _ hgo
    simp [hgo, Bind.bind, Except.bind]
  · have hlen := typePathGo_length _ _ _ hgo
    simp only [hgo]
    simp [Bind.bind, Except.bind, hlen]
    rcases hLast : tp.getLast? with _ | t
    · simp
    · by_cases ht : t = "value" <;> simp [ht]

/-! ## Lemmas about the validator -/

lemma string_append_right_cancel (a b c : String) (h : a ++ c = b ++ c) : a = b := by
  have hd : a.data ++ c.data = b.data ++ c.data := by
    have := congrArg String.data h
    simpa [String.data_append] using this
  have h2 := List.append_cancel_right hd
  cases a; cases b; simp at h2; simp [h2]

lemma mem_collectErrors (jm im : List String) (msg : String)
    (h : msg ∈ collectErrors jm im) :
    ∃ k, k ∈ jm ∧ k ∉ im ∧ msg = k ++ " is not defined." := by
  induction jm with
  | nil => simp [collectErrors] at h
  | cons j rest ih =>
      by_cases hj : j ∈ im
      · rw [collectErrors, if_pos hj] at h
        obtain ⟨k, hk1, hk2, hk3⟩ := ih h
        exact ⟨k, by simp [hk1], hk2, hk3⟩
      · rw [collectErrors, if_neg hj] at h
        rcases List.mem_cons.mp h with rfl | h'
        · exact ⟨j, by simp, hj, rfl⟩
        · obtain ⟨k, hk1, hk2, hk3⟩ := ih h'
          exact ⟨k, by simp [hk1], hk2, hk3⟩

lemma collectErrors_count (jm im : List String) (hn : jm.Nodup) (k : String)
    (hk : k ∈ jm) (hni : k ∉ im) :
    (collectErrors jm im).count (k ++ " is not defined.") = 1 := by
  induction jm with
  | nil => cases hk
  | cons j rest ih =>
      obtain ⟨hjr, hn'⟩ := List.nodup_cons.mp hn
      rcases List.mem_cons.mp hk with rfl | hkrest
      · rw [collectErrors, if_neg hni, List.count_cons_self]
        have hz : (collectErrors rest im).count (k ++ " is not defined.") = 0 := by
          rw [List.count_eq_zero]
          intro hmem
          obtain ⟨k', hk'1, _, hk'3⟩ := mem_collectErrors rest im _ hmem
          have : k' = k := string_append_right_cancel _ _ _ hk'3.symm
          exact hjr (this ▸ hk'1)
        rw [hz]
      · have hkj : k ≠ j := fun he => hjr (he ▸ hkrest)
        by_cases hj : j ∈ im
        · rw [collectErrors, if_pos hj]
          exact ih hn' hkrest
        · rw [collectErrors, if_neg hj, List.count_cons_of_ne, ih hn' hkrest]
          intro he
          exact hkj (string_append_right_cancel _ _ _ he)

lemma collectErrors_nil_iff (jm im : List String) :
    collectErrors jm im = [] ↔ ∀ k ∈ jm, k ∈ im := by
  induction jm with
  | nil => simp [collectErrors]
  | cons j rest ih =>
      by_cases hj : j ∈ im
      · rw [collectErrors, if_pos hj, ih]
        constructor
        · intro h k hk
          rcases List.mem_cons.mp hk with rfl | hk'
          · exact hj
          · exact h k hk'
        · intro h k hk
          exact h k (by simp [hk])
      · rw [collectErrors, if_neg hj]
        constructor
        · intro h; cases h
        · intro h
          exact absurd (h j (by simp)) hj

/-! ## Claim C1 -/

/-- C1 (counterexample): a path whose first segment is declared with a scalar
kind can still resolve successfully when the following segment is declared at
the same schema level — the loop keeps looking in the unchanged level after
appending `value`, so resolution returns a kind sequence with `value` before
the last position instead of failing. -/
theorem schema_value_mid_path_cex :
    getTypeOfItemTypePath [("a", .valueT none), ("b", .valueT none)] "a.b"
      = .ok ["value", "value"] := by
  simp [getTypeOfItemTypePath, splitDots, splitDotsChars, typePathGo, lookupS,
    Bind.bind, Except.bind, Except.map]

/-- C1 (amended): a non-final segment of scalar kind does not by itself make
schema-side resolution fail; segments after a `value` kind are looked up in
the same schema level, so a successful resolution may contain `value` before
the last position.  What success does guarantee is one kind per path segment
and a final `value` entry, and the defensive length check never fires. -/
theorem schema_path_success_postcondition :
    ∀ (schema : List (String × SchemaNode)) (key : String),
    (∀ tp, getTypeOfItemTypePath schema key = .ok tp →
        tp.length = (splitDots key).length ∧ tp.getLast? = some "value")
  ∧ getTypeOfItemTypePath schema key ≠ .error .lengthMismatch := by
  intro schema key
  constructor
  · intro tp h
    unfold getTypeOfItemTypePath at h
    rcases hgo : typePathGo (splitDots key) schema with e | tp0
    · simp [hgo, Bind.bind, Except.bind] at h
    · simp only [hgo, Bind.bind, Except.bind] at h
      by_cases hlen : tp0.length = (splitDots key).length
      · rw [if_neg (not_not_intro hlen)] at h
        rcases hL : tp0.getLast? with _ | t
        · simp [hL] at h
        · simp only [hL] at h
          by_cases ht : t = "value"
          · rw [if_pos ht] at h
            have : tp0 = tp := by simpa using h
            subst this
            exact ⟨hlen, ht ▸ hL⟩
          · rw [if_neg ht] at h
            cases h
      · rw [if_pos hlen] at h
        cases h
  · exact getType_no_lengthMismatch schema key

/-- C1 (witness). -/
theorem schema_path_success_postcondition_witness :
    (["value", "value"] : List String).length = (splitDots "a.b").length
  ∧ (["value", "value"] : List String).getLast? = some "value" :=
  (schema_path_success_postcondition [("a", .valueT none), ("b", .valueT none)] "a.b").1
    ["value", "value"]
    (by simp [getTypeOfItemTypePath, splitDots, splitDotsChars, typePathGo, lookupS,
      Bind.bind, Except.bind, Except.map])

/-! ## Claim C2 -/

/-- C2 (counterexample): resolving a one-segment path whose value is a
top-level list of scalars does not return the list — it enters list mode with
no remaining segments and raises the ValueExhaustedEarly-class error on the
first scalar element. -/
theorem list_scalar_element_cex :
    getJsonMetadataValue [("b", .arr [.str "x", .str "y"])] "b"
      = .error .valueExhaustedEarly := by
  simp [getJsonMetadataValue, splitDots, splitDotsChars, pyGetV, lookupJ, detectList,
    detectListAux, Except.map]

/-- C2 (amended): a scalar element met in list mode always raises the
ValueExhaustedEarly-class error, whether or not path segments remain; in
particular a one-segment path to a top-level non-empty list of scalars
raises instead of returning the list. -/
theorem list_scalar_element_always_raises :
    ∀ (meta : JObj) (key k : String) (l : List JValue),
    splitDots key = [k] → pyGetV meta k = some (.arr l) → l ≠ [] →
    (∀ x ∈ l, isScalar x = true) →
    getJsonMetadataValue meta key = .error .valueExhaustedEarly := by
  intro meta key k l hsplit hget hne hsc
  rcases l with _ | ⟨x, xtl⟩
  · exact absurd rfl hne
  unfold getJsonMetadataValue
  rw [hsplit]
  simp [hget, detectList_scalar_head [] x xtl (hsc x (by simp)), Except.map]

/-- C2 (witness). -/
theorem list_scalar_element_always_raises_witness :
    getJsonMetadataValue [("b", .arr [.str "x"])] "b" = .error .valueExhaustedEarly :=
  list_scalar_element_always_raises [("b", .arr [.str "x"])] "b" "b" [.str "x"]
    rfl rfl (by simp)
    (by intro x hx; rw [List.mem_singleton] at hx; subst hx; rfl)

/-! ## Claim C3 -/

/-- C3 (counterexample): re-applying the same rule with the same scalar value
to the single-element-wrapped list it created leaves the output tree exactly
unchanged — no array element is appended. -/
theorem reapply_wrap_unchanged_cex :
    createMetadataOfAProperty [("p", .arr [.obj [("q", .str "x")]])] "p.q"
      ["array", "value"] (.str "x")
      = .ok [("p", .arr [.obj [("q", .str "x")]])] := by
  simp [createMetadataOfAProperty, createMetaKeys, createMetaCore, createChild, childLoop,
    splitDots, splitDotsChars, baseAt, fetchTruthy, lookupJ, writeLeaf, objSet,
    getDimensions, truthy, Bind.bind, Except.bind]

/-- C3 (amended): rule application is idempotent for every rule, including
array-producing ones: whenever applying a rule to an output tree succeeds,
re-applying the same rule with the same extracted value to the resulting tree
returns that tree unchanged (writes overwrite; nothing is appended). -/
theorem rule_application_idempotent :
    ∀ (m : JObj) (key : String) (ts : List String) (jv : JValue) (m' : JObj),
    createMetadataOfAProperty m key ts jv = .ok m' →
    createMetadataOfAProperty m' key ts jv = .ok m' :=
  fun m key ts jv m' h => cmk_idem m (splitDots key) ts jv m' h

/-- C3 (witness). -/
theorem rule_application_idempotent_witness :
    createMetadataOfAProperty
      [("p", .arr [.obj [("q", .str "x")], .obj [("q", .str "y")]])]
      "p.q" ["array", "value"] (.arr [.str "x", .str "y"])
      = .ok [("p", .arr [.obj [("q", .str "x")], .obj [("q", .str "y")]])] :=
  rule_application_idempotent [] "p.q" ["array", "value"] (.arr [.str "x", .str "y"]) _
    (by simp [createMetadataOfAProperty, createMetaKeys, createMetaCore, createChild,
      childLoop, splitDots, splitDotsChars, baseAt, fetchTruthy, lookupJ, writeLeaf,
      objSet, getDimensions, truthy, Bind.bind, Except.bind])

/-! ## Claim C4 -/

/-- C4: dimension reconciliation.  When the extracted value is exactly one
list level deeper than the number of `array` kinds, the builder collapses
once and proceeds with only the first element; when it is more than one
level deeper, it fails with the TooManyDimensions-class error and writes
nothing. -/
theorem dimension_reconciliation :
    ∀ (m : JObj) (key : String) (ts : List String) (x : JValue) (xs : List JValue)
      (jv : JValue),
    (getDimensions (.arr (x :: xs)) = ts.count "array" + 1 →
        createMetadataOfAProperty m key ts (.arr (x :: xs))
          = createMetadataOfAProperty m key ts x)
  ∧ (ts.count "array" + 1 < getDimensions jv →
        createMetadataOfAProperty m key ts jv = .error .tooManyDimensions) := by
  intro m key ts x xs jv
  constructor
  · intro h
    have hx : getDimensions x = ts.count "array" := by
      simp [getDimensions] at h
      omega
    unfold createMetadataOfAProperty
    rw [cmk_collapse _ _ _ _ _ h, cmk_eq_core _ _ _ _ (Nat.le_of_eq hx)]
  · intro h
    unfold createMetadataOfAProperty
    exact cmk_tooMany _ _ _ _ h

/-- C4 (witness): d=2, a=1 collapses to the first top-level element;
d=3, a=1 fails. -/
theorem dimension_reconciliation_witness :
    createMetadataOfAProperty [] "p.q" ["array", "value"]
        (.arr [.arr [.str "x", .str "y"], .arr [.str "z"]])
      = createMetadataOfAProperty [] "p.q" ["array", "value"] (.arr [.str "x", .str "y"])
  ∧ createMetadataOfAProperty [] "p.q" ["array", "value"] (.arr [.arr [.arr [.str "x"]]])
      = .error .tooManyDimensions :=
  ⟨(dimension_reconciliation [] "p.q" ["array", "value"] (.arr [.str "x", .str "y"])
      [.arr [.str "z"]] .null).1 (by decide),
   (dimension_reconciliation [] "p.q" ["array", "value"] .null []
      (.arr [.arr [.arr [.str "x"]]])).2 (by decide)⟩

/-! ## Claim C5 -/

/-- C5: dimension counting — scalars have dimension 0, the empty list has
dimension 1, and a non-empty list has dimension one more than its first
element, regardless of the other elements. -/
theorem dimension_counting :
    (∀ v : JValue, isScalar v = true → getDimensions v = 0)
  ∧ getDimensions (.arr []) = 1
  ∧ ∀ (x : JValue) (rest : List JValue),
      getDimensions (.arr (x :: rest)) = 1 + getDimensions x :=
  ⟨dims_of_scalar, rfl, fun _ _ => rfl⟩

/-- C5 (witness): including the ragged list of the spec,
whose dimension is computed from its first element only. -/
theorem dimension_counting_witness :
    isScalar (.str "x") = true ∧ getDimensions (.str "x") = 0
  ∧ getDimensions (.arr [.arr [.num 1, .num 2], .str "x"])
      = 1 + getDimensions (.arr [.num 1, .num 2]) :=
  ⟨rfl, dimension_counting.1 (.str "x") rfl,
   dimension_counting.2.2 (.arr [.num 1, .num 2]) [.str "x"]⟩

/-! ## Claim C6 -/

/-- C6 (counterexample): a flat list whose element is the scalar null does
not produce `{q: null}` — the leaf write is skipped for null, leaving an
empty object in the replicated list. -/
theorem replicate_null_element_cex :
    createMetadataOfAProperty [] "p.q" ["array", "value"] (.arr [.null])
      = .ok [("p", .arr [.obj []])]
  ∧ JValue.arr [.obj []] ≠ .arr [.obj [("q", .null)]] := by
  constructor
  · simp [createMetadataOfAProperty, createMetaKeys, createMetaCore, createChild,
      childLoop, splitDots, splitDotsChars, baseAt, fetchTruthy, lookupJ, writeLeaf,
      objSet, getDimensions, truthy, Bind.bind, Except.bind]
  · simp

/-- C6 (amended): replication, for non-null scalar elements.  A flat list of
non-null scalars written with kinds `[array, value]` along a two-segment
path into a tree with no entry at the first segment produces one object per
element, the i-th being `{q: v[i]}` (null elements would instead leave empty
objects, since leaf writes skip null). -/
theorem replicate_flat_list :
    ∀ (m : JObj) (key p q : String) (l : List JValue),
    splitDots key = [p, q] →
    (∀ x ∈ l, isScalar x = true ∧ x ≠ .null) →
    lookupJ m p = none →
    createMetadataOfAProperty m key ["array", "value"] (.arr l)
      = .ok (objSet m p (.arr (l.map fun x => .obj [(q, x)]))) := by
  intro m key p q l hsplit hl hlook
  have hd1 : getDimensions (.arr l) = 1 :=
    dims_arr_of_scalars l (fun x hx => (hl x hx).1)
  have hcnt : (["array", "value"] : List String).count "array" = 1 := by decide
  unfold createMetadataOfAProperty
  rw [hsplit, cmk_eq_core _ _ _ _ (by simp [hcnt, hd1]), hcnt]
  rcases l with _ | ⟨v, vtl⟩
  · rw [cmc_repl_nil m p q [] ["value"] 1 (by simp [getDimensions]),
      baseAt_of_lookup_none _ _ _ hlook]
    simp
  · rw [cmc_repl_cons m p q [] ["value"] v vtl 1 (by rw [hd1]; decide) _
      (baseAt_of_lookup_none _ _ _ hlook)]
    have hloop := cl_replicate (1 - getDimensions (.arr (v :: vtl))) q ["value"] (v :: vtl)
    simp only [List.length_cons] at hloop
    rw [hloop]
    rw [map_writeLeaf_nonnull q (v :: vtl) (fun x hx => (hl x hx).2)]
    simp [Bind.bind, Except.bind]

/-- C6 (witness): the spec example `["x", "y"]`. -/
theorem replicate_flat_list_witness :
    createMetadataOfAProperty [] "p.q" ["array", "value"] (.arr [.str "x", .str "y"])
      = .ok [("p", .arr [.obj [("q", .str "x")], .obj [("q", .str "y")]])] := by
  have h := replicate_flat_list [] "p.q" "p" "q" [.str "x", .str "y"] rfl
    (by intro x hx; simp at hx; rcases hx with rfl | rfl <;> exact ⟨rfl, by simp⟩) rfl
  simpa [objSet] using h

/-! ## Claim C7 -/

/-- C7 (counterexample): the scalar null written with kinds `[array, value]`
produces `p: [{}]`, not `p: [{q: null}]` — the leaf write is skipped for
null. -/
theorem single_wrap_null_cex :
    createMetadataOfAProperty [] "p.q" ["array", "value"] .null
      = .ok [("p", .arr [.obj []])]
  ∧ JValue.arr [.obj [("q", .null)]] ≠ .arr [.obj []] := by
  constructor
  · simp [createMetadataOfAProperty, createMetaKeys, createMetaCore, createChild,
      childLoop, splitDots, splitDotsChars, baseAt, fetchTruthy, lookupJ, writeLeaf,
      objSet, getDimensions, truthy, Bind.bind, Except.bind]
  · simp

/-- C7 (amended): single-wrap, for non-null scalars.  A non-null scalar
written with kinds `[array, value]` along a two-segment path into a tree
with no entry at the first segment produces a single-element list holding
`{q: x}` (the null scalar would instead leave an empty object). -/
theorem single_wrap_scalar :
    ∀ (m : JObj) (key p q : String) (x : JValue),
    splitDots key = [p, q] → isScalar x = true → x ≠ .null → lookupJ m p = none →
    createMetadataOfAProperty m key ["array", "value"] x
      = .ok (objSet m p (.arr [.obj [(q, x)]])) := by
  intro m key p q x hsplit hsc hnull hlook
  have h0 : getDimensions x = 0 := dims_of_scalar x hsc
  have hcnt : (["array", "value"] : List String).count "array" = 1 := by decide
  unfold createMetadataOfAProperty
  rw [hsplit, cmk_eq_core _ _ _ _ (by simp [hcnt, h0]), hcnt]
  rw [cmc_wrap m p q [] ["value"] x 1 (by rw [h0]; decide) (.obj []) []
    (baseAt_of_lookup_none _ _ _ hlook)]
  rw [cc_leaf, writeLeaf_of_ne_null _ _ _ hnull]
  simp [Bind.bind, Except.bind, objSet]

/-- C7 (witness): the spec example `"x"`. -/
theorem single_wrap_scalar_witness :
    createMetadataOfAProperty [] "p.q" ["array", "value"] (.str "x")
      = .ok [("p", .arr [.obj [("q", .str "x")]])] := by
  have h := single_wrap_scalar [] "p.q" "p" "q" (.str "x") rfl rfl (by simp) rfl
  simpa [objSet] using h

/-! ## Claim C8 -/

/-- C8: the validator produces exactly one `"{id} is not defined."` message
per rule id of the source-path table missing from the target-path table,
raises nothing when no id is missing, raises all messages together in a
single batch otherwise, and the boolean form is true iff no violation was
collected. -/
theorem validator_batch_report :
    ∀ (jm im : List String), jm.Nodup →
    (∀ k, k ∈ jm → k ∉ im →
        (collectErrors jm im).count (k ++ " is not defined.") = 1)
  ∧ (collectErrors jm im = [] ↔ ∀ k ∈ jm, k ∈ im)
  ∧ (validateMapping jm im = .ok () ↔ collectErrors jm im = [])
  ∧ (collectErrors jm im ≠ [] →
        validateMapping jm im = .error (.validationFailed (collectErrors jm im)))
  ∧ (isValidMapping jm im = true ↔ collectErrors jm im = []) := by
  intro jm im hn
  refine ⟨fun k hk hni => collectErrors_count jm im hn k hk hni,
    collectErrors_nil_iff jm im, ?_, ?_, ?_⟩
  · unfold validateMapping
    rcases h : collectErrors jm im with _ | ⟨msg, msgs⟩ <;> simp
  · intro hne
    unfold validateMapping
    rcases h : collectErrors jm im with _ | ⟨msg, msgs⟩
    · exact absurd h hne
    · simp
  · unfold isValidMapping validateMapping
    rcases h : collectErrors jm im with _ | ⟨msg, msgs⟩ <;> simp

/-- C8 (witness): the spec example with source ids r1, r2, r3 and target
ids r1, r3. -/
theorem validator_batch_report_witness :
    (collectErrors ["r1", "r2", "r3"] ["r1", "r3"]).count ("r2" ++ " is not defined.") = 1
  ∧ (isValidMapping ["r1", "r2", "r3"] ["r1", "r3"] = true
      ↔ collectErrors ["r1", "r2", "r3"] ["r1", "r3"] = []) :=
  ⟨(validator_batch_report ["r1", "r2", "r3"] ["r1", "r3"] (by decide)).1 "r2"
      (by decide) (by decide),
   (validator_batch_report ["r1", "r2", "r3"] ["r1", "r3"] (by decide)).2.2.2.2⟩

/-! ## Claim C9 -/

/-- C9: a source document whose header marks the record as deleted makes the
full mapping pass return the empty result immediately, regardless of the
schema and of the mapping tables — no header field is seeded and no rule is
applied. -/
theorem deleted_record_short_circuit :
    ∀ (doc : SourceDoc) (schema : List (String × SchemaNode))
      (itemMap jsonMap : List (String × String)),
    doc.deleted = true → mapRecord doc schema itemMap jsonMap = .ok [] := by
  intro doc schema itemMap jsonMap h
  simp [mapRecord, h]

/-- C9 (witness): a deleted record with a non-trivial schema and mapping
table still maps to the empty result. -/
theorem deleted_record_short_circuit_witness :
    mapRecord ⟨true, "2024-01-01", .str "public", .str "1", [("k", .str "v")]⟩
      [("a", .valueT (some "File"))] [("r1", "a")] [("r1", "k")] = .ok [] :=
  deleted_record_short_circuit _ _ _ _ rfl

/-! ## Claim C10 -/

/-- C10 (counterexample): when the existing list at the key is empty, it is
falsy, so the builder replaces it with a fresh full-length list instead of
indexing past its end — no IndexError, and the stored list does change
length. -/
theorem existing_empty_list_cex :
    createMetadataOfAProperty [("p", .arr [])] "p.q" ["array", "value"]
        (.arr [.str "a", .str "b"])
      = .ok [("p", .arr [.obj [("q", .str "a")], .obj [("q", .str "b")]])] := by
  simp [createMetadataOfAProperty, createMetaKeys, createMetaCore, createChild, childLoop,
    splitDots, splitDotsChars, baseAt, fetchTruthy, lookupJ, writeLeaf, objSet,
    getDimensions, truthy, Bind.bind, Except.bind]

/-- C10 (amended): when the array-kind step with no remaining array surplus
finds a non-empty existing list shorter than the extracted list, processing
the existing elements succeeds element-wise and the loop then indexes past
the end, failing with the plain IndexError (not a mapping exception); a
successful loop never changes the length of the existing list. -/
theorem existing_shorter_list_index_error :
    (∀ (d : Nat) (keys ts : List String) (ms vs ms' : List JValue),
        ms.length < vs.length →
        childLoop d ms keys ts (vs.take ms.length) = .ok ms' →
        childLoop d ms keys ts vs = .error .indexError)
  ∧ (∀ (d : Nat) (keys ts : List String) (ms vs ms' : List JValue),
        childLoop d ms keys ts vs = .ok ms' → ms'.length = ms.length)
  ∧ (∀ (o : JObj) (k q : String) (ts' : List String) (ms vs : List JValue),
        lookupJ o k = some (.arr ms) → ms ≠ [] → (∀ x ∈ ms, isObj x = true) →
        ms.length < vs.length →
        createChild 0 (.obj o) [k, q] ("array" :: ts') (.arr vs)
          = .error .indexError)
  ∧ (∀ (m : JObj) (key p q : String) (ms vs : List JValue),
        splitDots key = [p, q] → getDimensions (.arr vs) = 1 →
        lookupJ m p = some (.arr ms) → ms ≠ [] → (∀ x ∈ ms, isObj x = true) →
        ms.length < vs.length →
        createMetadataOfAProperty m key ["array", "value"] (.arr vs)
          = .error .indexError) := by
  refine ⟨fun d keys ts ms vs ms' => cl_prefix_overflow d keys ts ms vs ms',
    fun d keys ts ms vs ms' h => (cl_ok_len keys d ms ts vs ms' h).1, ?_, ?_⟩
  · intro o k q ts' ms vs hlook hne hobj hlt
    have htr : truthy (.arr ms) = true := by
      rcases ms with _ | ⟨mh, mtl⟩
      · exact absurd rfl hne
      · simp [truthy]
    rcases vs with _ | ⟨v, vtl⟩
    · simp at hlt
    rw [cc_repl_cons o k q [] ts' v vtl ms
      (baseAt_of_lookup_truthy o k _ _ hlook htr)]
    obtain ⟨ms', hok⟩ := cl_objs_ok 0 q ts' ms ((v :: vtl).take ms.length) hobj
      (by rw [List.length_take]; exact Nat.min_le_left _ _)
    have herr := cl_prefix_overflow 0 [q] ts' ms (v :: vtl) ms' hlt hok
    rw [herr]
    simp [Bind.bind, Except.bind]
  · intro m key p q ms vs hsplit hd1 hlook hne hobj hlt
    have hcnt : (["array", "value"] : List String).count "array" = 1 := by decide
    have htr : truthy (.arr ms) = true := by
      rcases ms with _ | ⟨mh, mtl⟩
      · exact absurd rfl hne
      · simp [truthy]
    unfold createMetadataOfAProperty
    rw [hsplit, cmk_eq_core _ _ _ _ (by simp [hcnt, hd1]), hcnt]
    rcases vs with _ | ⟨v, vtl⟩
    · simp at hlt
    rw [cmc_repl_cons m p q [] ["value"] v vtl 1 (by rw [hd1]; decide) ms
      (baseAt_of_lookup_truthy m p _ _ hlook htr)]
    obtain ⟨ms', hok⟩ := cl_objs_ok (1 - getDimensions (.arr (v :: vtl))) q ["value"] ms
      ((v :: vtl).take ms.length) hobj
      (by rw [List.length_take]; exact Nat.min_le_left _ _)
    have herr := cl_prefix_overflow _ [q] ["value"] ms (v :: vtl) ms' hlt hok
    rw [herr]
    simp [Bind.bind, Except.bind]

/-- C10 (witness): an existing one-element list written by a prior rule,
hit by a two-element extracted list, raises the plain IndexError. -/
theorem existing_shorter_list_index_error_witness :
    createMetadataOfAProperty [("p", .arr [.obj [("q", .str "x")]])] "p.q"
        ["array", "value"] (.arr [.str "a", .str "b"]) = .error .indexError :=
  existing_shorter_list_index_error.2.2.2 [("p", .arr [.obj [("q", .str "x")]])]
    "p.q" "p" "q" [.obj [("q", .str "x")]] [.str "a", .str "b"] rfl rfl rfl
    (by simp)
    (by intro x hx; rw [List.mem_singleton] at hx; subst hx; rfl)
    (by decide)

end WekoSword
